import Mathlib

/-!
Verification of the rustmetrics pricing-orchestration core: a shallow
embedding of the evaluation-date observer subsystem, the curve resolver
(MatchParameter), the instrument partitioner (InstrumentCategory and
EngineGenerator), the result aggregate (CalculationResult) and the
result-merge step of the parallel calculation, together with theorems
settling the specification claims about them.

Modelling conventions: `OffsetDateTime` timestamps are embedded as `Int`
(only their linear order matters for the claims), the `Real` numeric
alias (`f32`) as `ℚ` so that the multiplicative dividend algebra is
exact, `FxHashMap` as an association list (its iteration only feeds
entry-wise rebuilds and disjoint-key merges here), and fallible Rust
functions as `Except String` or an `Option String` error component.
`StaticId` comes from the external `static-id` crate and is embedded as
its (code, venue) string pair; `StaticId::default()` is the sentinel
"no curve" identifier.
-/

namespace RustMetrics

/-- Stable identifier from the external static-id crate: a (code, venue)
pair of strings. -/
structure StaticId where
  code : String
  venue : String
  deriving DecidableEq

/-- Embeds `StaticId::default()`, the reserved sentinel "no curve needed"
identifier. -/
def StaticId.dflt : StaticId := ⟨"", ""⟩

/-- Rendering of a `StaticId` for diagnostic messages (the source prints
ids with the external crate's Debug instance; only injectivity of the
rendering matters for the claims). -/
def StaticId.show (s : StaticId) : String := s.code ++ "@" ++ s.venue

/-- Embeds `Currency` (src/currency.rs). -/
inductive Currency
  | NIL | KRW | USD | EUR | JPY | CNY | CNH | GBP | AUD | CAD | CHF | NZD
  deriving DecidableEq

/-- Embeds `Currency::as_str` (src/currency.rs). -/
def Currency.asStr : Currency → String
  | .NIL => "NIL"
  | .KRW => "KRW"
  | .USD => "USD"
  | .EUR => "EUR"
  | .JPY => "JPY"
  | .CNY => "CNY"
  | .CNH => "CNH"
  | .GBP => "GBP"
  | .AUD => "AUD"
  | .CAD => "CAD"
  | .CHF => "CHF"
  | .NZD => "NZD"

/-- Modelled from the spec: `InstType` lives in `instruments/mod.rs`,
which is not under src/; its variants and `as_str` names follow the
`Instrument` enum variants and the type-name strings used by the source
tests ("Futures", "PlainSwap", "Stock", ...). -/
inductive InstType
  | Futures | Bond | BondFutures | KTBF | PlainSwap | FxFutures
  | VanillaOption | Stock | Cash
  deriving DecidableEq

/-- Type-name string of an instrument type (`InstType::as_str`). -/
def InstType.asStr : InstType → String
  | .Futures => "Futures"
  | .Bond => "Bond"
  | .BondFutures => "BondFutures"
  | .KTBF => "KTBF"
  | .PlainSwap => "PlainSwap"
  | .FxFutures => "FxFutures"
  | .VanillaOption => "VanillaOption"
  | .Stock => "Stock"
  | .Cash => "Cash"

/-- Modelled from the spec: `AccountingLevel` lives in
`instruments/mod.rs`, which is not under src/; the source tests use the
levels L1 and L2, plus a third level. -/
inductive AccountingLevel
  | L1 | L2 | L3
  deriving DecidableEq

/-- Modelled from the spec: `IssuerType` lives in `enums.rs`, which is
not under src/; it is only a key component of the bond discount curve
map. -/
inductive IssuerType
  | Government | Public | Corporate | Financial
  deriving DecidableEq

/-- Modelled from the spec: `CreditRating` lives in `enums.rs`, which is
not under src/; it is only a key component of the bond discount curve
map. -/
inductive CreditRating
  | AAA | AA | A | BBB | Junk
  deriving DecidableEq

/-- Modelled from the spec: `OptionDailySettlementType` lives in
`enums.rs`, which is not under src/; `match_parameter.rs` matches its
two variants `Settled` and `NotSettled`. -/
inductive OptionDailySettlementType
  | Settled | NotSettled
  deriving DecidableEq

/-- Embeds `InstInfo` (src/instruments/inst_info.rs). -/
structure InstInfo where
  id : StaticId
  name : String
  instType : InstType
  currency : Currency
  unitNotional : ℚ
  issueDate : Option Int
  maturity : Option Int
  accountingLevel : AccountingLevel
  deriving DecidableEq

/-- Embeds `InstInfo::type_name` (src/instruments/inst_info.rs). -/
def InstInfo.typeName (i : InstInfo) : String := i.instType.asStr

/-- Embeds `InstInfo::code_str` (src/instruments/inst_info.rs). -/
def InstInfo.codeStr (i : InstInfo) : String := i.id.code

/-- Equity futures payload: `instruments/futures.rs` is not under src/;
the fields are the ones visible through the constructor call
`Futures::new(inst_info, average_trade_price, settlement_date,
underlying_currency, underlying_id)` in the source tests, and
`get_underlying_ids` returns the single underlying id. -/
structure FuturesData where
  instInfo : InstInfo
  averageTradePrice : ℚ
  settlementDate : Option Int
  underlyingCurrency : Currency
  underlyingId : StaticId
  deriving DecidableEq

/-- Bond payload: `instruments/bond.rs` is not under src/; the fields
are the ones read by `MatchParameter::get_discount_curve_id` through
`get_issuer_id`, `get_issuer_type` and `get_credit_rating`. -/
structure BondData where
  instInfo : InstInfo
  issuerId : StaticId
  issuerType : IssuerType
  creditRating : CreditRating
  deriving DecidableEq

/-- Plain swap payload: `instruments/plain_swap.rs` is not under src/;
the fields are the ones read by `MatchParameter` through
`get_fixed_leg_currency`, `get_floating_leg_currency` and
`get_rate_index` (a swap may have no rate index, in which case
`get_discount_curve_id` matches `None`). The rate index is carried by
its id, which is all `rate_index.get_id()` extracts. -/
structure PlainSwapData where
  instInfo : InstInfo
  fixedLegCurrency : Currency
  floatingLegCurrency : Currency
  rateIndexId : Option StaticId
  deriving DecidableEq

/-- FX futures payload: `instruments/fx_futures.rs` is not under src/;
only the underlying currency is read by the embedded resolvers. -/
structure FxFuturesData where
  instInfo : InstInfo
  underlyingCurrency : Currency
  deriving DecidableEq

/-- Vanilla option payload: `instruments/vanilla_option.rs` is not under
src/; the fields are the ones read by the embedded code through
`get_underlying_ids` and `get_option_daily_settlement_type`. -/
structure VanillaOptionData where
  instInfo : InstInfo
  underlyingIds : List StaticId
  settlementType : OptionDailySettlementType
  deriving DecidableEq

/-- Embeds the `Instrument` enum (src/instrument.rs). Variants whose
payload files are not under src/ and whose extra fields are never read
by the embedded functions carry only their `InstInfo`. -/
inductive Instrument
  | Futures (d : FuturesData)
  | Bond (d : BondData)
  | BondFutures (d : InstInfo)
  | KTBF (d : InstInfo)
  | PlainSwap (d : PlainSwapData)
  | FxFutures (d : FxFuturesData)
  | VanillaOption (d : VanillaOptionData)
  | Stock (d : InstInfo)
  | Cash (d : InstInfo)
  deriving DecidableEq

/-- Embeds `InstrumentTrait::get_inst_info` dispatch (src/instrument.rs). -/
def Instrument.instInfo : Instrument → InstInfo
  | .Futures d => d.instInfo
  | .Bond d => d.instInfo
  | .BondFutures i => i
  | .KTBF i => i
  | .PlainSwap d => d.instInfo
  | .FxFutures d => d.instInfo
  | .VanillaOption d => d.instInfo
  | .Stock i => i
  | .Cash i => i

/-- Embeds `InstrumentTrait::get_id` (src/instrument.rs). -/
def Instrument.getId (i : Instrument) : StaticId := i.instInfo.id

/-- Embeds `InstrumentTrait::get_name` (src/instrument.rs). -/
def Instrument.getName (i : Instrument) : String := i.instInfo.name

/-- Embeds `InstrumentTrait::get_code_str` (src/instrument.rs). -/
def Instrument.getCodeStr (i : Instrument) : String := i.instInfo.codeStr

/-- Embeds `InstrumentTrait::get_currency` (src/instrument.rs). -/
def Instrument.getCurrency (i : Instrument) : Currency := i.instInfo.currency

/-- Embeds `InstrumentTrait::get_type_name` (src/instrument.rs); the
default reads `inst_info.type_name()` and the KTBF override returns the
same "KTBF" string. -/
def Instrument.getTypeName (i : Instrument) : String := i.instInfo.typeName

/-- Embeds `InstrumentTrait::get_underlying_ids` (src/instrument.rs):
the trait default is the empty vector; `Futures` and `VanillaOption`
carry underlying ids (their payload files are not under src/, but
`pricer_factory.rs` indexes `get_underlying_ids()[0]` for both). -/
def Instrument.getUnderlyingIds : Instrument → List StaticId
  | .Futures d => [d.underlyingId]
  | .VanillaOption d => d.underlyingIds
  | _ => []

/-- Embeds `InstrumentCategory` (src/pricing_engines/engine_generator.rs). -/
structure InstrumentCategory where
  typeNames : Option (List String)
  currency : Option (List Currency)
  underlyingIds : Option (List StaticId)
  deriving DecidableEq

/-- Embeds `InstrumentCategory::contains`
(src/pricing_engines/engine_generator.rs lines 41-69).  The source
returns `Result<bool>` but never errs, so the embedding returns the
boolean directly; the three filters successively force the initially
true result to false when they fail, and the underlying-id filter is
only consulted when the instrument's underlying list is nonempty. -/
def InstrumentCategory.containsInst (c : InstrumentCategory) (inst : Instrument) : Bool :=
  let instrumentTypeInp := inst.getTypeName
  let currencyInp := inst.getCurrency
  let underlyingIdsInp := inst.getUnderlyingIds
  let res := true
  let res := match c.typeNames with
    | some typeNames => if ¬ typeNames.contains instrumentTypeInp then false else res
    | none => res
  let res := match c.currency with
    | some currency => if ¬ currency.contains currencyInp then false else res
    | none => res
  let res := match c.underlyingIds with
    | some underlyingIds =>
        if ¬ underlyingIdsInp.isEmpty ∧ underlyingIds ≠ underlyingIdsInp then false else res
    | none => res
  res

/-- Index of the first category in the list whose predicate matches the
instrument (the assignment order of `distribute_instruments`). -/
def firstIdx (cats : List InstrumentCategory) (inst : Instrument) : Option Nat :=
  match cats with
  | [] => none
  | c :: cs => if c.containsInst inst then some 0 else (firstIdx cs inst).map (· + 1)

/-- One category pass of `distribute_instruments`: walk the
(instrument, claimed) state in order, claim every still-unclaimed
instrument the category contains, and return the claimed instruments
(the category's group) together with the updated state. -/
def categoryScan (cat : InstrumentCategory) :
    List (Instrument × Bool) → List Instrument × List (Instrument × Bool)
  | [] => ([], [])
  | (inst, claimed) :: rest =>
      let (g, st) := categoryScan cat rest
      if !claimed && cat.containsInst inst then (inst :: g, (inst, true) :: st)
      else (g, (inst, claimed) :: st)

/-- The category loop of `distribute_instruments`: scan each category in
order, dropping empty groups, and thread the claimed flags through. -/
def distributeLoop :
    List InstrumentCategory → List (Instrument × Bool) →
    List (List Instrument) × List (Instrument × Bool)
  | [], st => ([], st)
  | cat :: cats, st =>
      let (g, st') := categoryScan cat st
      let (gs, st'') := distributeLoop cats st'
      (if g.isEmpty then gs else g :: gs, st'')

/-- Embeds the per-instrument diagnostic block of
`distribute_instruments` (name, code, type, currency, underlying ids of
an undistributed instrument). -/
def undistributedMsg (inst : Instrument) : String :=
  inst.getName ++ " (" ++ inst.getCodeStr ++ ")\n" ++
  "type: " ++ inst.getTypeName ++ "\n" ++
  "currency: " ++ inst.getCurrency.asStr ++ "\n" ++
  "underlying_ids: " ++ toString (inst.getUnderlyingIds.map StaticId.show) ++ "\n"

/-- Embeds the error text of `distribute_instruments` for a list of
undistributed instruments. -/
def undistributedError (l : List Instrument) : String :=
  "The following instruments are not distributed:\n" ++
  String.intercalate "\n" (l.map undistributedMsg)

/-- Embeds `EngineGenerator::distribute_instruments`
(src/pricing_engines/engine_generator.rs lines 177-223): every
instrument starts unclaimed, each category in order claims the
unclaimed instruments it contains (empty groups are dropped), and if
any instrument remains unclaimed the whole call returns the diagnostic
error instead of the groups. -/
def distributeInstruments (cats : List InstrumentCategory) (insts : List Instrument) :
    Except String (List (List Instrument)) :=
  let st0 := insts.map (fun i => (i, false))
  let (gs, st) := distributeLoop cats st0
  let instNameMsgs := (st.filter (fun p => !p.2)).map (fun p => undistributedMsg p.1)
  if instNameMsgs.isEmpty then .ok gs
  else .error ("The following instruments are not distributed:\n" ++
               String.intercalate "\n" instNameMsgs)

/-- Reference groups for the first-match characterization: group `j`
collects, in input order, exactly the instruments whose first matching
category is `j`. -/
def firstMatchGroups (cats : List InstrumentCategory) (insts : List Instrument) :
    List (List Instrument) :=
  (List.range cats.length).map
    (fun j => insts.filter (fun v => firstIdx cats v = some j))

/-- Peeling recursion equivalent to the claimed-flag loop: the group of
the head category is the matching not-yet-claimed instruments, and the
tail categories only see the non-matching remainder. -/
def specGroups : List InstrumentCategory → List Instrument → List (List Instrument)
  | [], _ => []
  | c :: cs, insts =>
      insts.filter (fun v => c.containsInst v) ::
      specGroups cs (insts.filter (fun v => ¬ c.containsInst v))

/-- Association-list lookup embedding `FxHashMap::get` (first binding of
the key wins; the embedded maps are used with distinct keys). -/
def alookup {α β : Type} [DecidableEq α] : List (α × β) → α → Option β
  | [], _ => none
  | p :: rest, a => if a = p.1 then some p.2 else alookup rest a

/-- Embeds `MatchParameter` (src/pricing_engines/match_parameter.rs):
the six curve-role tables. -/
structure MatchParameter where
  collateralCurveMap : List (StaticId × StaticId)
  borrowingCurveMap : List (StaticId × StaticId)
  bondDiscountCurveMap : List ((StaticId × IssuerType × CreditRating × Currency) × StaticId)
  rateIndexForwardCurveMap : List (StaticId × StaticId)
  crsCurveMap : List (Currency × StaticId)
  fundingCostMap : List (Currency × StaticId)
  deriving DecidableEq

/-- Embeds `MatchParameter::get_discount_curve_id`
(src/pricing_engines/match_parameter.rs lines 146-209).  A `Bond` looks
up the (issuer id, issuer type, credit rating, currency) tuple and
falls back to the sentinel when absent; a `PlainSwap` with a rate index
uses that index's forward curve (an unmapped index is an error) and one
without a rate index gets the sentinel; a `VanillaOption` gets the
sentinel when daily-settled and otherwise the funding curve of its
currency (absence is an error); the remaining six instrument kinds are
not discounted and get the sentinel.  The Bond accessor calls
(`get_issuer_id` and friends) are total on the embedded Bond payload. -/
def MatchParameter.getDiscountCurveId (m : MatchParameter) (inst : Instrument) :
    Except String StaticId :=
  match inst with
  | .Bond b =>
      match alookup m.bondDiscountCurveMap
              (b.issuerId, b.issuerType, b.creditRating, b.instInfo.currency) with
      | some curveId => .ok curveId
      | none => .ok StaticId.dflt
  | .PlainSwap s =>
      match s.rateIndexId with
      | none => .ok StaticId.dflt
      | some rateIndexId =>
          match alookup m.rateIndexForwardCurveMap rateIndexId with
          | some curveId => .ok curveId
          | none => .error ("Rate index forward curve is not found for " ++ rateIndexId.show)
  | .VanillaOption o =>
      match o.settlementType with
      | .Settled => .ok StaticId.dflt
      | .NotSettled =>
          match alookup m.fundingCostMap o.instInfo.currency with
          | some curveId => .ok curveId
          | none => .error ("Risk free rate curve is not found for " ++ o.instInfo.name ++
                            " (" ++ o.instInfo.codeStr ++ "). The Option currency is " ++
                            o.instInfo.currency.asStr ++
                            " but its curve is not found in MatchParameter.funding_cost")
  | .Futures _ => .ok StaticId.dflt
  | .BondFutures _ => .ok StaticId.dflt
  | .KTBF _ => .ok StaticId.dflt
  | .FxFutures _ => .ok StaticId.dflt
  | .Stock _ => .ok StaticId.dflt
  | .Cash _ => .ok StaticId.dflt

/-- Discrete-ratio dividend observer.  The schedule of (ex-date, ratio)
pairs and its accessor `get_dividend_ratio` embed
`parameters/discrete_ratio_dividend.rs`; that file is not under src/,
so the observer-update side is modelled from the spec: the dividend is
itself re-evaluated against the new date, and its update fails when its
schedule is not loaded (spec §4.1, §7). -/
structure DiscreteRatioDividend where
  name : String
  dividendRatios : List (Int × ℚ)
  scheduleLoaded : Bool
  evalDate : Int
  deriving DecidableEq

/-- Modelled from the spec: the dividend observer's
`update_evaluation_date` re-evaluates the observer against the new date
and fails fast when its schedule is not loaded. -/
def DiscreteRatioDividend.updateEvaluationDate (d : DiscreteRatioDividend) (dt : Int) :
    Except String DiscreteRatioDividend :=
  if d.scheduleLoaded then .ok { d with evalDate := dt }
  else .error ("dividend schedule of " ++ d.name ++ " is not loaded")

/-- Embeds `MarketPrice` (src/parameters/market_price.rs). -/
structure MarketPrice where
  value : ℚ
  marketDatetime : Int
  dividend : Option DiscreteRatioDividend
  currency : Currency
  name : String
  id : StaticId
  deriving DecidableEq

/-- Embeds `MarketPrice::update_evaluation_date`
(src/parameters/market_price.rs lines 96-148).  With no dividend the
whole body is skipped (in particular `market_datetime` is not synced).
Moving forward (`market_datetime < eval_dt`) multiplies the value by
`1 - ratio` for every schedule entry with ex-date in
`(market_datetime, eval_dt]`; otherwise it divides by `1 - ratio` for
every entry with ex-date in `(eval_dt, market_datetime]`; both branches
then set `market_datetime` to the evaluation date.  The source returns
`Result` but only ever `Ok`, so the embedding is total. -/
def MarketPrice.updateEvaluationDate (mp : MarketPrice) (evalDt : Int) : MarketPrice :=
  match mp.dividend with
  | none => mp
  | some dividend =>
      if mp.marketDatetime < evalDt then
        { mp with
          value := dividend.dividendRatios.foldl
            (fun acc p =>
              if mp.marketDatetime < p.1 ∧ p.1 ≤ evalDt then acc * (1 - p.2) else acc)
            mp.value,
          marketDatetime := evalDt }
      else
        { mp with
          value := dividend.dividendRatios.foldl
            (fun acc p =>
              if evalDt < p.1 ∧ p.1 ≤ mp.marketDatetime then acc / (1 - p.2) else acc)
            mp.value,
          marketDatetime := evalDt }

/-- Embeds `EvaluationDate` (src/evaluation_date.rs): the timestamp and
the two registration-ordered observer lists (the `Rc<RefCell<..>>`
cells become list entries owned by the state). -/
structure EvaluationDate where
  date : Int
  marketpriceObservers : List MarketPrice
  dividendObservers : List DiscreteRatioDividend
  deriving DecidableEq

/-- The dividend half of `EvaluationDate::notify_observers`: observers
are updated in registration order; the first failing update aborts the
iteration with the `expect` diagnostic, leaving the failing observer
and every later one untouched. -/
def notifyDividendObservers (dt : Int) :
    List DiscreteRatioDividend → List DiscreteRatioDividend × Option String
  | [] => ([], none)
  | o :: rest =>
      match o.updateEvaluationDate dt with
      | .error e => (o :: rest, some ("Failed to update dividend observer: " ++ e))
      | .ok o' =>
          let (rest', err) := notifyDividendObservers dt rest
          (o' :: rest', err)

/-- Embeds `EvaluationDate::notify_observers` (src/evaluation_date.rs
lines 233-251): every MarketPrice observer is updated first, in
registration order (their updates cannot fail in the source), then the
dividend observers; a failing dividend update aborts the call through
`expect`, which the embedding renders as the `Option String` error
component while keeping the observer mutations already performed. -/
def EvaluationDate.notifyObservers (s : EvaluationDate) : EvaluationDate × Option String :=
  let mkt := s.marketpriceObservers.map (fun o => o.updateEvaluationDate s.date)
  let (divs, err) := notifyDividendObservers s.date s.dividendObservers
  ({ s with marketpriceObservers := mkt, dividendObservers := divs }, err)

/-- Embeds `EvaluationDate::set_date` (src/evaluation_date.rs lines
187-190): replace the timestamp, then notify. -/
def EvaluationDate.setDate (s : EvaluationDate) (date : Int) : EvaluationDate × Option String :=
  EvaluationDate.notifyObservers { s with date := date }

/-- Modelled from the spec: the `+=` period operator computes the target
date via calendar period arithmetic (`add_period` lives in
`utils/string_arithmetic.rs`, not under src/) and then notifies exactly
as `set_date`; a period is modelled by its signed day offset. -/
def EvaluationDate.addAssign (s : EvaluationDate) (k : Int) : EvaluationDate × Option String :=
  EvaluationDate.notifyObservers { s with date := s.date + k }

/-- Modelled from the spec: the `-=` period operator, as
`EvaluationDate.addAssign` with the offset subtracted. -/
def EvaluationDate.subAssign (s : EvaluationDate) (k : Int) : EvaluationDate × Option String :=
  EvaluationDate.notifyObservers { s with date := s.date - k }

/-- Product of the `1 - ratio` factors of the schedule entries whose
ex-date lies in the half-open window `(lo, hi]` (entries outside the
window contribute the neutral factor 1). -/
def windowProd (l : List (Int × ℚ)) (lo hi : Int) : ℚ :=
  (l.map (fun p => if lo < p.1 ∧ p.1 ≤ hi then 1 - p.2 else 1)).prod

/-- Embeds `CalculationResult`
(src/pricing_engines/calculation_result.rs).  `NpvResult` lives in
`npv_result.rs` (not under src/) and is cloned unchanged by the
currency conversion, so it is carried by its NPV; the greeks maps
become association lists and `Array2` a row list. The source's
`vega_strucure` spelling is kept. -/
structure CalculationResult where
  instrumentInfo : Option InstInfo
  evaluationDate : Option Int
  npvResult : Option ℚ
  value : Option ℚ
  fxExposure : Option (List (Currency × ℚ))
  delta : Option (List (StaticId × ℚ))
  gamma : Option (List (StaticId × ℚ))
  vega : Option (List (StaticId × ℚ))
  vegaStrucure : Option (List (StaticId × List ℚ))
  vegaMatrix : Option (List (StaticId × List (List ℚ)))
  theta : Option ℚ
  divDelta : Option (List (StaticId × ℚ))
  divStructure : Option (List (StaticId × List ℚ))
  rho : Option (List (StaticId × ℚ))
  rhoStructure : Option (List (StaticId × List ℚ))
  thetaDay : Option Int
  cashflows : Option (List (Int × ℚ))
  representationCurrency : Option Currency
  deriving DecidableEq

/-- Embeds `CalculationResult::representation_currency_conversion`
(src/pricing_engines/calculation_result.rs lines 479-626).  The source
first unwraps `representation_currency` (embedded as the `none` arm),
returns a clone when the target currency equals the current one, and
otherwise rebuilds the result with value, fx exposure, delta, gamma,
vega, vega structure, vega matrix, theta, dividend delta, dividend
structure, rho and rho structure scaled entry-wise by the FX rate,
`npv_result`, `theta_day` and `cashflows` cloned unchanged, and the
representation currency replaced by the target. -/
def CalculationResult.representationCurrencyConversion
    (r : CalculationResult) (currency : Currency) (fxRate : ℚ) :
    Option CalculationResult :=
  match r.representationCurrency with
  | none => none
  | some repCurrency =>
      if currency = repCurrency then some r
      else some { r with
        value := r.value.map (fun x => x * fxRate),
        fxExposure := r.fxExposure.map (List.map (fun p => (p.1, p.2 * fxRate))),
        delta := r.delta.map (List.map (fun p => (p.1, p.2 * fxRate))),
        gamma := r.gamma.map (List.map (fun p => (p.1, p.2 * fxRate))),
        vega := r.vega.map (List.map (fun p => (p.1, p.2 * fxRate))),
        vegaStrucure :=
          r.vegaStrucure.map (List.map (fun p => (p.1, p.2.map (fun x => x * fxRate)))),
        vegaMatrix :=
          r.vegaMatrix.map (List.map (fun p => (p.1, p.2.map (List.map (fun x => x * fxRate))))),
        theta := r.theta.map (fun x => x * fxRate),
        divDelta := r.divDelta.map (List.map (fun p => (p.1, p.2 * fxRate))),
        divStructure :=
          r.divStructure.map (List.map (fun p => (p.1, p.2.map (fun x => x * fxRate)))),
        rho := r.rho.map (List.map (fun p => (p.1, p.2 * fxRate))),
        rhoStructure :=
          r.rhoStructure.map (List.map (fun p => (p.1, p.2.map (fun x => x * fxRate)))),
        representationCurrency := some currency }

/-- Embeds one `mut_res.insert(*key, value)` step of the merge loop in
`EngineGenerator::calculate`, on the shared results map viewed as a
lookup function. -/
def insertResult (m : StaticId → Option CalculationResult) (k : StaticId)
    (v : CalculationResult) : StaticId → Option CalculationResult :=
  fun x => if x = k then some v else m x

/-- Embeds the per-group merge loop of `EngineGenerator::calculate`
(src/pricing_engines/engine_generator.rs lines 264-269): every (key,
value) pair of one group's result map is inserted into the shared map. -/
def mergeGroupResult (m : StaticId → Option CalculationResult)
    (g : List (StaticId × CalculationResult)) : StaticId → Option CalculationResult :=
  g.foldl (fun acc p => insertResult acc p.1 p.2) m

/-- The initially empty shared results map of
`EngineGenerator::calculate`. -/
def emptyResults : StaticId → Option CalculationResult := fun _ => none

/-- Merging the per-group result maps of `EngineGenerator::calculate`
in one particular arrival order (the parallel workers take the lock in
a scheduler-dependent order; the theorem below shows the order is
immaterial under cross-group id uniqueness). -/
def mergeAllResults (gs : List (List (StaticId × CalculationResult))) :
    StaticId → Option CalculationResult :=
  gs.foldl mergeGroupResult emptyResults

/-- Cross-group uniqueness of instrument ids: no key of one group's
result map occurs in another group's. -/
def keysDisjoint (g1 g2 : List (StaticId × CalculationResult)) : Prop :=
  ∀ k ∈ g1.map Prod.fst, k ∉ g2.map Prod.fst

instance (g1 g2 : List (StaticId × CalculationResult)) : Decidable (keysDisjoint g1 g2) := by
  unfold keysDisjoint
  infer_instance

/-! Concrete fixtures used by the witness and counterexample theorems. -/

/-- Fixture identifier. -/
def idA : StaticId := ⟨"AAA", "V"⟩

/-- Fixture identifier. -/
def idB : StaticId := ⟨"BBB", "V"⟩

/-- Fixture instrument info. -/
def mkInfo (code : String) (t : InstType) (c : Currency) : InstInfo :=
  { id := ⟨code, "V"⟩, name := code, instType := t, currency := c,
    unitNotional := 1, issueDate := none, maturity := none, accountingLevel := .L1 }

/-- Fixture cash instrument (no underlyings). -/
def cashEx : Instrument := .Cash (mkInfo "CASH1" .Cash .KRW)

/-- Fixture equity futures instrument with underlying `idA`. -/
def futEx : Instrument :=
  .Futures { instInfo := mkInfo "FUT1" .Futures .KRW, averageTradePrice := 100,
             settlementDate := none, underlyingCurrency := .KRW, underlyingId := idA }

/-- Fixture bond payload. -/
def bondEx : BondData :=
  { instInfo := mkInfo "BND1" .Bond .KRW, issuerId := idB,
    issuerType := .Government, creditRating := .AAA }

/-- Fixture plain-swap payload with rate index `idA`. -/
def swapEx : PlainSwapData :=
  { instInfo := mkInfo "SWP1" .PlainSwap .KRW, fixedLegCurrency := .KRW,
    floatingLegCurrency := .KRW, rateIndexId := some idA }

/-- Fixture category keyed on currency only. -/
def catKRW : InstrumentCategory :=
  { typeNames := none, currency := some [.KRW], underlyingIds := none }

/-- Fixture category restricted to underlying `idA`. -/
def catUnd : InstrumentCategory :=
  { typeNames := none, currency := none, underlyingIds := some [idA] }

/-- Fixture match parameter with all six tables empty. -/
def emptyMatch : MatchParameter := ⟨[], [], [], [], [], []⟩

/-- Fixture dividend with a single ratio of exactly 1 (a 100% dividend). -/
def divExOne : DiscreteRatioDividend :=
  { name := "d1", dividendRatios := [(1, 1)], scheduleLoaded := true, evalDate := 0 }

/-- Fixture dividend with a single ratio of one half. -/
def divExHalf : DiscreteRatioDividend :=
  { name := "dh", dividendRatios := [(1, 1/2)], scheduleLoaded := true, evalDate := 0 }

/-- Fixture dividend observer whose schedule is not loaded (its update
fails). -/
def divBad : DiscreteRatioDividend :=
  { name := "bad", dividendRatios := [], scheduleLoaded := false, evalDate := 0 }

/-- Fixture market price with no dividend schedule. -/
def mpNoDiv : MarketPrice :=
  { value := 100, marketDatetime := 0, dividend := none, currency := .KRW,
    name := "s0", id := idA }

/-- Fixture market price carrying the 100%-ratio dividend. -/
def mpDivOne : MarketPrice :=
  { value := 1, marketDatetime := 0, dividend := some divExOne, currency := .KRW,
    name := "s1", id := idA }

/-- Fixture market price carrying the one-half-ratio dividend. -/
def mpDivHalf : MarketPrice :=
  { value := 100, marketDatetime := 0, dividend := some divExHalf, currency := .KRW,
    name := "s2", id := idB }

/-- Fixture evaluation date observing the 100%-ratio market price. -/
def evalExOne : EvaluationDate :=
  { date := 0, marketpriceObservers := [mpDivOne], dividendObservers := [] }

/-- Fixture evaluation date observing the one-half-ratio market price. -/
def evalExHalf : EvaluationDate :=
  { date := 0, marketpriceObservers := [mpDivHalf], dividendObservers := [divExHalf] }

/-- Fixture evaluation date observing a dividend-less market price. -/
def evalNoDiv : EvaluationDate :=
  { date := 0, marketpriceObservers := [mpNoDiv], dividendObservers := [] }

/-- Fixture evaluation date whose second dividend observer fails. -/
def evalC6 : EvaluationDate :=
  { date := 0, marketpriceObservers := [mpDivHalf],
    dividendObservers := [divExHalf, divBad, divExOne] }

/-- Fixture calculation result with every optional field absent. -/
def calcResEmpty : CalculationResult :=
  { instrumentInfo := none, evaluationDate := none, npvResult := none, value := none,
    fxExposure := none, delta := none, gamma := none, vega := none, vegaStrucure := none,
    vegaMatrix := none, theta := none, divDelta := none, divStructure := none, rho := none,
    rhoStructure := none, thetaDay := none, cashflows := none,
    representationCurrency := none }

/-- Fixture calculation result with every monetary field populated and
representation currency KRW. -/
def calcResEx : CalculationResult :=
  { instrumentInfo := none, evaluationDate := some 0, npvResult := some 100,
    value := some 200, fxExposure := some [(.KRW, 3)], delta := some [(idA, 4)],
    gamma := some [(idA, 5)], vega := some [(idA, 6)],
    vegaStrucure := some [(idA, [1, 2])], vegaMatrix := some [(idA, [[1, 2], [3, 4]])],
    theta := some 7, divDelta := some [(idA, 8)], divStructure := some [(idA, [9])],
    rho := some [(idB, 10)], rhoStructure := some [(idB, [11])], thetaDay := some 1,
    cashflows := some [(5, 12)], representationCurrency := some .KRW }

/-- Fixture per-group result for group A. -/
def calcA : CalculationResult := { calcResEmpty with value := some 1 }

/-- Fixture per-group result for group B. -/
def calcB : CalculationResult := { calcResEmpty with value := some 2 }

/-- Fixture per-group result maps with disjoint keys. -/
def groupsEx : List (List (StaticId × CalculationResult)) := [[(idA, calcA)], [(idB, calcB)]]

/-- The fixture groups in the opposite merge order. -/
def groupsExRev : List (List (StaticId × CalculationResult)) := [[(idB, calcB)], [(idA, calcA)]]

/-! Theorems. -/

/-- C10: for every instrument whose underlying-identifier list is empty,
`InstrumentCategory::contains` ignores the category's underlying-id
filter entirely — replacing the filter never changes the verdict, and
the verdict is exactly the conjunction of the type-name and currency
filters. -/
theorem claim_contains_empty_underlyings
    (c : InstrumentCategory) (inst : Instrument)
    (hempty : inst.getUnderlyingIds = []) :
    (∀ us, InstrumentCategory.containsInst { c with underlyingIds := us } inst
        = c.containsInst inst)
    ∧ c.containsInst inst =
        ((match c.typeNames with
          | some typeNames => typeNames.contains inst.getTypeName
          | none => true) &&
         (match c.currency with
          | some currency => currency.contains inst.getCurrency
          | none => true)) := by
  obtain ⟨tns, curs, uids⟩ := c
  constructor
  · intro us
    cases tns <;> cases curs <;> cases uids <;> cases us <;>
      simp [InstrumentCategory.containsInst, hempty]
  · cases tns <;> cases curs <;> cases uids <;>
      simp [InstrumentCategory.containsInst, hempty, Bool.and_comm]

/-- Witness for C10: a cash instrument (no underlyings) matches a
category restricted to the underlying `idA`, and replacing that filter
by another underlying set does not change the verdict. -/
theorem claim_contains_empty_underlyings_witness :
    InstrumentCategory.containsInst
        { catUnd with underlyingIds := some [idB] } cashEx
      = catUnd.containsInst cashEx :=
  (claim_contains_empty_underlyings catUnd cashEx (by decide)).1 (some [idB])

/-- C8: for a Bond, `MatchParameter::get_discount_curve_id` looks the
curve up by the (issuer id, issuer type, credit rating, currency) tuple
in the bond discount curve map, and an absent key yields the sentinel
identifier, not an error. -/
theorem claim_bond_discount_sentinel (m : MatchParameter) (b : BondData) :
    (∀ curveId,
        alookup m.bondDiscountCurveMap
            (b.issuerId, b.issuerType, b.creditRating, b.instInfo.currency) = some curveId →
        m.getDiscountCurveId (.Bond b) = .ok curveId)
    ∧ (alookup m.bondDiscountCurveMap
          (b.issuerId, b.issuerType, b.creditRating, b.instInfo.currency) = none →
        m.getDiscountCurveId (.Bond b) = .ok StaticId.dflt) := by
  constructor
  · intro curveId h
    simp [MatchParameter.getDiscountCurveId, h]
  · intro h
    simp [MatchParameter.getDiscountCurveId, h]

/-- Witness for C8: the fixture bond with the empty bond discount curve
map resolves to the sentinel identifier. -/
theorem claim_bond_discount_sentinel_witness :
    emptyMatch.getDiscountCurveId (.Bond bondEx) = .ok StaticId.dflt :=
  (claim_bond_discount_sentinel emptyMatch bondEx).2 (by decide)

/-- Counterexample for C4: the claim states that a Bond always gets a
real (non-sentinel) curve id or an error, but a Bond whose (issuer,
issuer type, rating, currency) key is absent from the bond discount
curve map gets `Ok` of the sentinel identifier. -/
theorem claim_discount_curve_counterexample :
    ¬ ((∃ curveId, emptyMatch.getDiscountCurveId (.Bond bondEx) = .ok curveId
          ∧ curveId ≠ StaticId.dflt)
       ∨ (∃ e, emptyMatch.getDiscountCurveId (.Bond bondEx) = .error e)) := by
  intro h
  have hcomp : emptyMatch.getDiscountCurveId (.Bond bondEx) = .ok StaticId.dflt := rfl
  rcases h with ⟨curveId, heq, hne⟩ | ⟨e, heq⟩
  · rw [hcomp] at heq
    injection heq with h'
    exact hne h'.symm
  · rw [hcomp] at heq
    exact Except.noConfusion heq

/-- C4 (amended): `get_discount_curve_id` returns the sentinel for
Futures, BondFutures, KTBF, FxFutures, Stock and Cash; for a Bond the
mapped curve id when the (issuer, issuer type, rating, currency) key is
present and the sentinel otherwise; for a PlainSwap the forward curve of
its rate index (an unmapped index is an error) and the sentinel when the
swap has no rate index; for a VanillaOption the sentinel when it is
daily-settled and otherwise the funding curve of its currency (absence
is an error). -/
theorem claim_discount_curve_amended (m : MatchParameter) :
    (∀ d, m.getDiscountCurveId (.Futures d) = .ok StaticId.dflt)
    ∧ (∀ i, m.getDiscountCurveId (.BondFutures i) = .ok StaticId.dflt)
    ∧ (∀ i, m.getDiscountCurveId (.KTBF i) = .ok StaticId.dflt)
    ∧ (∀ d, m.getDiscountCurveId (.FxFutures d) = .ok StaticId.dflt)
    ∧ (∀ i, m.getDiscountCurveId (.Stock i) = .ok StaticId.dflt)
    ∧ (∀ i, m.getDiscountCurveId (.Cash i) = .ok StaticId.dflt)
    ∧ (∀ b : BondData,
        (∀ curveId,
            alookup m.bondDiscountCurveMap
                (b.issuerId, b.issuerType, b.creditRating, b.instInfo.currency)
              = some curveId →
            m.getDiscountCurveId (.Bond b) = .ok curveId)
        ∧ (alookup m.bondDiscountCurveMap
              (b.issuerId, b.issuerType, b.creditRating, b.instInfo.currency) = none →
            m.getDiscountCurveId (.Bond b) = .ok StaticId.dflt))
    ∧ (∀ s : PlainSwapData,
        (s.rateIndexId = none → m.getDiscountCurveId (.PlainSwap s) = .ok StaticId.dflt)
        ∧ ∀ rid, s.rateIndexId = some rid →
            (∀ curveId, alookup m.rateIndexForwardCurveMap rid = some curveId →
                m.getDiscountCurveId (.PlainSwap s) = .ok curveId)
            ∧ (alookup m.rateIndexForwardCurveMap rid = none →
                ∃ e, m.getDiscountCurveId (.PlainSwap s) = .error e))
    ∧ (∀ o : VanillaOptionData,
        (o.settlementType = .Settled →
            m.getDiscountCurveId (.VanillaOption o) = .ok StaticId.dflt)
        ∧ (o.settlementType = .NotSettled →
            (∀ curveId, alookup m.fundingCostMap o.instInfo.currency = some curveId →
                m.getDiscountCurveId (.VanillaOption o) = .ok curveId)
            ∧ (alookup m.fundingCostMap o.instInfo.currency = none →
                ∃ e, m.getDiscountCurveId (.VanillaOption o) = .error e))) := by
  refine ⟨fun d => rfl, fun i => rfl, fun i => rfl, fun d => rfl, fun i => rfl, fun i => rfl,
    fun b => ⟨fun curveId h => ?_, fun h => ?_⟩,
    fun s => ⟨fun h => ?_, fun rid hrid => ⟨fun curveId h => ?_, fun h => ?_⟩⟩,
    fun o => ⟨fun h => ?_, fun h => ⟨fun curveId hl => ?_, fun hl => ?_⟩⟩⟩ <;>
    simp [MatchParameter.getDiscountCurveId, *]

/-- Witness for C4 (amended): the fixture plain swap carries the rate
index `idA`, which has no mapped forward curve in the empty match
parameter, so resolution is an error. -/
theorem claim_discount_curve_amended_witness :
    ∃ e, emptyMatch.getDiscountCurveId (.PlainSwap swapEx) = .error e :=
  (((claim_discount_curve_amended emptyMatch).2.2.2.2.2.2.2.1 swapEx).2 idA
    (by decide)).2 (by decide)

/-- C5: currency re-expression of a `CalculationResult` returns the
result unchanged when the target currency equals the representation
currency, for every FX rate, and otherwise scales value, fx exposure,
delta, gamma, vega, vega structure, vega matrix, theta, dividend delta,
dividend structure, rho and rho structure entry-wise by exactly the
supplied FX rate and re-stamps the representation currency. -/
theorem claim_currency_conversion (r : CalculationResult) (repCurrency : Currency)
    (hrep : r.representationCurrency = some repCurrency)
    (currency : Currency) (fxRate : ℚ) :
    (currency = repCurrency →
        r.representationCurrencyConversion currency fxRate = some r)
    ∧ (currency ≠ repCurrency →
        r.representationCurrencyConversion currency fxRate = some
          { r with
            value := r.value.map (fun x => x * fxRate),
            fxExposure := r.fxExposure.map (List.map (fun p => (p.1, p.2 * fxRate))),
            delta := r.delta.map (List.map (fun p => (p.1, p.2 * fxRate))),
            gamma := r.gamma.map (List.map (fun p => (p.1, p.2 * fxRate))),
            vega := r.vega.map (List.map (fun p => (p.1, p.2 * fxRate))),
            vegaStrucure :=
              r.vegaStrucure.map (List.map (fun p => (p.1, p.2.map (fun x => x * fxRate)))),
            vegaMatrix :=
              r.vegaMatrix.map
                (List.map (fun p => (p.1, p.2.map (List.map (fun x => x * fxRate))))),
            theta := r.theta.map (fun x => x * fxRate),
            divDelta := r.divDelta.map (List.map (fun p => (p.1, p.2 * fxRate))),
            divStructure :=
              r.divStructure.map (List.map (fun p => (p.1, p.2.map (fun x => x * fxRate)))),
            rho := r.rho.map (List.map (fun p => (p.1, p.2 * fxRate))),
            rhoStructure :=
              r.rhoStructure.map (List.map (fun p => (p.1, p.2.map (fun x => x * fxRate)))),
            representationCurrency := some currency }) := by
  constructor
  · intro h
    simp [CalculationResult.representationCurrencyConversion, hrep, h]
  · intro h
    simp [CalculationResult.representationCurrencyConversion, hrep, h]

/-- Witness for C5: converting the fixture result to its own
representation currency (KRW) with an arbitrary rate of 7 returns it
unchanged. -/
theorem claim_currency_conversion_witness :
    calcResEx.representationCurrencyConversion .KRW 7 = some calcResEx :=
  (claim_currency_conversion calcResEx .KRW rfl .KRW 7).1 rfl

/-- Counterexample for C7: after a completed notification (no observer
failed), a MarketPrice observer with no dividend schedule does not have
its market datetime synced to the new timestamp — the whole update body
is skipped for it. -/
theorem claim_datetime_sync_counterexample :
    (evalNoDiv.setDate 3).2 = none
    ∧ (evalNoDiv.setDate 3).1.marketpriceObservers.map MarketPrice.marketDatetime ≠ [3] := by
  constructor
  · rfl
  · decide

/-- C7 (amended): after `set_date` notification the observer list is the
registration-ordered entry-wise update, every observer that carries a
dividend schedule has its market datetime synced to the new timestamp,
and a dividend-less observer is left entirely unchanged. -/
theorem claim_datetime_sync_amended (s : EvaluationDate) (d : Int) :
    (s.setDate d).1.marketpriceObservers
      = s.marketpriceObservers.map (fun mp => mp.updateEvaluationDate d)
    ∧ ∀ mp ∈ s.marketpriceObservers,
        (mp.dividend.isSome = true → (mp.updateEvaluationDate d).marketDatetime = d)
        ∧ (mp.dividend = none → mp.updateEvaluationDate d = mp) := by
  constructor
  · rfl
  · intro mp _
    constructor
    · intro hsome
      cases hdiv : mp.dividend with
      | none => rw [hdiv] at hsome; cases hsome
      | some dividend =>
          simp only [MarketPrice.updateEvaluationDate, hdiv]
          by_cases h : mp.marketDatetime < d <;> simp [h]
    · intro hnone
      simp only [MarketPrice.updateEvaluationDate, hnone]

/-- Witness for C7 (amended): in the fixture state, the observer with
the one-half dividend is synced to the new date 4. -/
theorem claim_datetime_sync_amended_witness :
    (mpDivHalf.updateEvaluationDate 4).marketDatetime = 4 :=
  (((claim_datetime_sync_amended evalExHalf 4).2 mpDivHalf (List.Mem.head _)).1) rfl

/-- The multiplicative dividend fold equals multiplication by the window
product. -/
theorem foldl_mul_window (l : List (Int × ℚ)) (v : ℚ) (lo hi : Int) :
    l.foldl (fun acc p => if lo < p.1 ∧ p.1 ≤ hi then acc * (1 - p.2) else acc) v
      = v * windowProd l lo hi := by
  induction l generalizing v with
  | nil => simp [windowProd]
  | cons p l ih =>
      simp only [List.foldl_cons]
      by_cases h : lo < p.1 ∧ p.1 ≤ hi
      · rw [if_pos h, ih]
        simp only [windowProd, List.map_cons, List.prod_cons]
        rw [if_pos h]
        ring
      · rw [if_neg h, ih]
        simp only [windowProd, List.map_cons, List.prod_cons]
        rw [if_neg h]
        ring

/-- The dividing dividend fold equals division by the window product. -/
theorem foldl_div_window (l : List (Int × ℚ)) (v : ℚ) (lo hi : Int) :
    l.foldl (fun acc p => if lo < p.1 ∧ p.1 ≤ hi then acc / (1 - p.2) else acc) v
      = v / windowProd l lo hi := by
  induction l generalizing v with
  | nil => simp [windowProd]
  | cons p l ih =>
      simp only [List.foldl_cons]
      by_cases h : lo < p.1 ∧ p.1 ≤ hi
      · rw [if_pos h, ih]
        simp only [windowProd, List.map_cons, List.prod_cons]
        rw [if_pos h, div_div]
      · rw [if_neg h, ih]
        simp only [windowProd, List.map_cons, List.prod_cons]
        rw [if_neg h, one_mul]

/-- A window product of nonzero factors is nonzero. -/
theorem windowProd_nonzero (l : List (Int × ℚ)) (lo hi : Int)
    (h : ∀ p ∈ l, (1 : ℚ) - p.2 ≠ 0) : windowProd l lo hi ≠ 0 := by
  induction l with
  | nil => simp [windowProd]
  | cons p l ih =>
      simp only [windowProd, List.map_cons, List.prod_cons]
      refine mul_ne_zero ?_ (ih (fun q hq => h q (List.mem_cons_of_mem _ hq)))
      split_ifs
      · exact h p (List.mem_cons_self _ _)
      · norm_num

/-- An empty (degenerate) window contributes only neutral factors. -/
theorem windowProd_of_le (l : List (Int × ℚ)) (lo hi : Int) (hle : hi ≤ lo) :
    windowProd l lo hi = 1 := by
  induction l with
  | nil => simp [windowProd]
  | cons p l ih =>
      simp only [windowProd, List.map_cons, List.prod_cons] at ih ⊢
      rw [ih, mul_one, if_neg]
      rintro ⟨h1, h2⟩
      omega

/-- A single market-price observer synced at `d0` returns to its exact
initial state after updating to `d1` and back to `d0`, provided every
dividend factor `1 - ratio` is nonzero. -/
theorem marketPrice_roundTrip (mp : MarketPrice) (d0 d1 : Int)
    (hmd : mp.marketDatetime = d0)
    (hfac : ∀ dividend, mp.dividend = some dividend →
        ∀ p ∈ dividend.dividendRatios, (1 : ℚ) - p.2 ≠ 0) :
    (mp.updateEvaluationDate d1).updateEvaluationDate d0 = mp := by
  obtain ⟨v, md, dv, cur, nm, idq⟩ := mp
  simp only at hmd
  subst hmd
  cases dv with
  | none => simp [MarketPrice.updateEvaluationDate]
  | some dividend =>
      have hf : ∀ p ∈ dividend.dividendRatios, (1 : ℚ) - p.2 ≠ 0 :=
        hfac dividend rfl
      by_cases h01 : md < d1
      · have h2 : ¬ (d1 < md) := by omega
        have e1 : MarketPrice.updateEvaluationDate ⟨v, md, some dividend, cur, nm, idq⟩ d1
            = ⟨v * windowProd dividend.dividendRatios md d1, d1, some dividend,
               cur, nm, idq⟩ := by
          simp only [MarketPrice.updateEvaluationDate, if_pos h01]
          rw [foldl_mul_window]
        have e2 : MarketPrice.updateEvaluationDate
              ⟨v * windowProd dividend.dividendRatios md d1, d1, some dividend, cur, nm, idq⟩ md
            = ⟨v * windowProd dividend.dividendRatios md d1
                 / windowProd dividend.dividendRatios md d1, md, some dividend,
               cur, nm, idq⟩ := by
          simp only [MarketPrice.updateEvaluationDate, if_neg h2]
          rw [foldl_div_window]
        rw [e1, e2, mul_div_cancel_right₀ _ (windowProd_nonzero _ _ _ hf)]
      · by_cases h10 : d1 < md
        · have e1 : MarketPrice.updateEvaluationDate ⟨v, md, some dividend, cur, nm, idq⟩ d1
              = ⟨v / windowProd dividend.dividendRatios d1 md, d1, some dividend,
                 cur, nm, idq⟩ := by
            simp only [MarketPrice.updateEvaluationDate, if_neg h01]
            rw [foldl_div_window]
          have e2 : MarketPrice.updateEvaluationDate
                ⟨v / windowProd dividend.dividendRatios d1 md, d1, some dividend, cur, nm, idq⟩ md
              = ⟨v / windowProd dividend.dividendRatios d1 md
                   * windowProd dividend.dividendRatios d1 md, md, some dividend,
                 cur, nm, idq⟩ := by
            simp only [MarketPrice.updateEvaluationDate, if_pos h10]
            rw [foldl_mul_window]
          rw [e1, e2, div_mul_cancel₀ _ (windowProd_nonzero _ _ _ hf)]
        · have he : d1 = md := by omega
          subst he
          have e1 : MarketPrice.updateEvaluationDate ⟨v, d1, some dividend, cur, nm, idq⟩ d1
              = ⟨v, d1, some dividend, cur, nm, idq⟩ := by
            simp only [MarketPrice.updateEvaluationDate, if_neg h01]
            rw [foldl_div_window, windowProd_of_le _ _ _ (le_refl _), div_one]
          rw [e1, e1]

/-- Projections of `notify_observers`: the date is unchanged, the
market-price observers are the entry-wise update at the state's date,
and the dividend observers and the error component come from the
dividend run. -/
theorem notifyObservers_parts (s : EvaluationDate) :
    (s.notifyObservers).1.marketpriceObservers
        = s.marketpriceObservers.map (fun o => o.updateEvaluationDate s.date)
    ∧ (s.notifyObservers).1.date = s.date
    ∧ (s.notifyObservers).1.dividendObservers
        = (notifyDividendObservers s.date s.dividendObservers).1
    ∧ (s.notifyObservers).2 = (notifyDividendObservers s.date s.dividendObservers).2 := by
  unfold EvaluationDate.notifyObservers
  rcases hnd : notifyDividendObservers s.date s.dividendObservers with ⟨divs, err⟩
  simp [hnd]

/-- C3: moving the evaluation date forward multiplies the market price
once by `1 - ratio` for every dividend ex-date in
`(old date, new date]`, and moving it backward divides once by
`1 - ratio` for every ex-date in `(new date, old date]`; ex-dates
outside the window contribute the neutral factor 1, leaving the price
unchanged. -/
theorem claim_dividend_direction (mp : MarketPrice) (dividend : DiscreteRatioDividend)
    (evalDt : Int) (hdiv : mp.dividend = some dividend) :
    (mp.marketDatetime < evalDt →
        (mp.updateEvaluationDate evalDt).value
          = mp.value * windowProd dividend.dividendRatios mp.marketDatetime evalDt)
    ∧ (¬ mp.marketDatetime < evalDt →
        (mp.updateEvaluationDate evalDt).value
          = mp.value / windowProd dividend.dividendRatios evalDt mp.marketDatetime) := by
  obtain ⟨v, md, dv, cur, nm, idq⟩ := mp
  simp only at hdiv ⊢
  subst hdiv
  constructor <;> intro h
  · simp only [MarketPrice.updateEvaluationDate, if_pos h]
    exact foldl_mul_window _ _ _ _
  · simp only [MarketPrice.updateEvaluationDate, if_neg h]
    exact foldl_div_window _ _ _ _

/-- Witness for C3: the fixture price moves forward from 0 to 2 across
the single ex-date 1 and is multiplied by the window product. -/
theorem claim_dividend_direction_witness :
    (mpDivHalf.updateEvaluationDate 2).value
      = mpDivHalf.value * windowProd divExHalf.dividendRatios mpDivHalf.marketDatetime 2 :=
  (claim_dividend_direction mpDivHalf divExHalf 2 rfl).1 (by decide)

/-- State form of `set_date` on an explicit evaluation-date value. -/
theorem setDate_state (dt : Int) (mps : List MarketPrice)
    (dvs : List DiscreteRatioDividend) (d : Int) :
    (EvaluationDate.setDate ⟨dt, mps, dvs⟩ d).1
      = ⟨d, mps.map (fun o => o.updateEvaluationDate d), (notifyDividendObservers d dvs).1⟩
    ∧ (EvaluationDate.setDate ⟨dt, mps, dvs⟩ d).2 = (notifyDividendObservers d dvs).2 := by
  unfold EvaluationDate.setDate EvaluationDate.notifyObservers
  rcases hnd : notifyDividendObservers d dvs with ⟨divs, err⟩
  simp [hnd]

/-- State form of the `+=` period operator on an explicit value. -/
theorem addAssign_state (dt : Int) (mps : List MarketPrice)
    (dvs : List DiscreteRatioDividend) (k : Int) :
    (EvaluationDate.addAssign ⟨dt, mps, dvs⟩ k).1
      = ⟨dt + k, mps.map (fun o => o.updateEvaluationDate (dt + k)),
         (notifyDividendObservers (dt + k) dvs).1⟩ := by
  unfold EvaluationDate.addAssign EvaluationDate.notifyObservers
  rcases hnd : notifyDividendObservers (dt + k) dvs with ⟨divs, err⟩
  simp [hnd]

/-- State form of the `-=` period operator on an explicit value. -/
theorem subAssign_state (dt : Int) (mps : List MarketPrice)
    (dvs : List DiscreteRatioDividend) (k : Int) :
    (EvaluationDate.subAssign ⟨dt, mps, dvs⟩ k).1
      = ⟨dt - k, mps.map (fun o => o.updateEvaluationDate (dt - k)),
         (notifyDividendObservers (dt - k) dvs).1⟩ := by
  unfold EvaluationDate.subAssign EvaluationDate.notifyObservers
  rcases hnd : notifyDividendObservers (dt - k) dvs with ⟨divs, err⟩
  simp [hnd]

/-- Counterexample for C2: with a dividend ratio of exactly 1 the
forward pass multiplies the price by `1 - 1 = 0` and the backward
division cannot restore it, so the round trip `0 → 1 → 0` does not
return the observer to its initial value (the Rust `f32` computation
produces NaN at the same input). -/
theorem claim_round_trip_counterexample :
    ((evalExOne.setDate 1).1.setDate 0).1.marketpriceObservers.map MarketPrice.value
      ≠ evalExOne.marketpriceObservers.map MarketPrice.value := by
  show ((EvaluationDate.setDate ⟨0, [mpDivOne], []⟩ 1).1.setDate 0).1.marketpriceObservers.map
        MarketPrice.value ≠ [mpDivOne].map MarketPrice.value
  rw [(setDate_state 0 [mpDivOne] [] 1).1, (setDate_state 1 _ _ 0).1]
  simp only [List.map_cons, List.map_nil, notifyDividendObservers, ne_eq, List.cons.injEq,
    and_true]
  have h1 : mpDivOne.updateEvaluationDate 1
      = ⟨0, 1, some divExOne, Currency.KRW, "s1", idA⟩ := by
    show MarketPrice.updateEvaluationDate ⟨1, 0, some divExOne, Currency.KRW, "s1", idA⟩ 1 = _
    simp only [MarketPrice.updateEvaluationDate, if_pos (show (0:Int) < 1 by norm_num)]
    rw [foldl_mul_window]
    norm_num [windowProd, divExOne]
  have h2 : MarketPrice.updateEvaluationDate ⟨0, 1, some divExOne, Currency.KRW, "s1", idA⟩ 0
      = ⟨0, 0, some divExOne, Currency.KRW, "s1", idA⟩ := by
    simp only [MarketPrice.updateEvaluationDate, if_neg (show ¬ (1:Int) < 0 by norm_num)]
    rw [foldl_div_window]
    norm_num
  rw [h1, h2]
  simp [mpDivOne]

/-- C2 (amended): for every market-price observer synced at the current
date, a round trip of the evaluation date from `d0` to `d1` and back to
`d0` — via `set_date` or via the period operators — restores the
observer's value exactly, provided every dividend factor `1 - ratio` is
nonzero (equivalently, no dividend ratio is exactly 1), because the
backward pass divides by exactly the factors the forward pass
multiplied by. -/
theorem claim_round_trip_amended (s : EvaluationDate) (d1 : Int)
    (hsync : ∀ mp ∈ s.marketpriceObservers, mp.marketDatetime = s.date)
    (hfac : ∀ mp ∈ s.marketpriceObservers, ∀ dividend, mp.dividend = some dividend →
        ∀ p ∈ dividend.dividendRatios, (1 : ℚ) - p.2 ≠ 0) :
    ((s.setDate d1).1.setDate s.date).1.marketpriceObservers.map MarketPrice.value
        = s.marketpriceObservers.map MarketPrice.value
    ∧ ∀ k : Int,
        ((s.addAssign k).1.subAssign k).1.marketpriceObservers.map MarketPrice.value
          = s.marketpriceObservers.map MarketPrice.value := by
  obtain ⟨dt, mps, dvs⟩ := s
  simp only at hsync hfac ⊢
  constructor
  · rw [(setDate_state dt mps dvs d1).1, (setDate_state d1 _ _ dt).1]
    simp only [List.map_map]
    apply List.map_congr_left
    intro mp hmp
    have hrt := marketPrice_roundTrip mp dt d1 (hsync mp hmp) (hfac mp hmp)
    simp [Function.comp, hrt]
  · intro k
    rw [addAssign_state dt mps dvs k]
    rw [subAssign_state (dt + k) _ _ k]
    rw [show dt + k - k = dt from by ring]
    simp only [List.map_map]
    apply List.map_congr_left
    intro mp hmp
    have hrt := marketPrice_roundTrip mp dt (dt + k) (hsync mp hmp) (hfac mp hmp)
    simp [Function.comp, hrt]

/-- Witness for C2 (amended): the fixture state with the one-half
dividend completes the round trip `0 → 5 → 0` with its observed value
unchanged. -/
theorem claim_round_trip_amended_witness :
    ((evalExHalf.setDate 5).1.setDate evalExHalf.date).1.marketpriceObservers.map
        MarketPrice.value
      = evalExHalf.marketpriceObservers.map MarketPrice.value :=
  (claim_round_trip_amended evalExHalf 5
    (by
      intro mp hmp
      rw [show evalExHalf.marketpriceObservers = [mpDivHalf] from rfl,
        List.mem_singleton] at hmp
      subst hmp
      rfl)
    (by
      intro mp hmp dividend hd p hp
      rw [show evalExHalf.marketpriceObservers = [mpDivHalf] from rfl,
        List.mem_singleton] at hmp
      subst hmp
      rw [show mpDivHalf.dividend = some divExHalf from rfl, Option.some.injEq] at hd
      subst hd
      rw [show divExHalf.dividendRatios = [(1, 1/2)] from rfl, List.mem_singleton] at hp
      subst hp
      norm_num)).1

/-- Helper for C6: running the dividend observers when an unloaded
observer follows a loaded prefix updates exactly the prefix, stops at
the failing observer, and reports the expect diagnostic. -/
theorem notifyDividend_fail (d : Int) (pre : List DiscreteRatioDividend)
    (bad : DiscreteRatioDividend) (post : List DiscreteRatioDividend)
    (hpre : ∀ o ∈ pre, o.scheduleLoaded = true)
    (hbad : bad.scheduleLoaded = false) :
    notifyDividendObservers d (pre ++ bad :: post)
      = (pre.map (fun o => { o with evalDate := d }) ++ bad :: post,
         some ("Failed to update dividend observer: " ++
               ("dividend schedule of " ++ bad.name ++ " is not loaded"))) := by
  induction pre with
  | nil =>
      simp [notifyDividendObservers, DiscreteRatioDividend.updateEvaluationDate, hbad]
  | cons o pre ih =>
      have ho : o.scheduleLoaded = true := hpre o (List.mem_cons_self _ _)
      simp only [List.cons_append, notifyDividendObservers,
        DiscreteRatioDividend.updateEvaluationDate, ho, if_true]
      rw [List.append_eq, ih (fun q hq => hpre q (List.mem_cons_of_mem _ hq))]
      simp [ho]

/-- C6: when a dividend observer's update fails during the notification
triggered by a date change, the whole call surfaces that first error to
the caller of the date change, the failing observer and every observer
registered after it remain un-notified, and the observers already
processed (all market prices, and the dividend observers before the
failing one) keep their updates — the date change is not atomic.  (In
the source the only fallible observer updates are the dividend ones —
`MarketPrice::update_evaluation_date` always returns `Ok` — and the
failure aborts through `expect`, rendered here as the error
component.) -/
theorem claim_notify_fail_fast (s : EvaluationDate) (d : Int)
    (pre : List DiscreteRatioDividend) (bad : DiscreteRatioDividend)
    (post : List DiscreteRatioDividend)
    (hsplit : s.dividendObservers = pre ++ bad :: post)
    (hpre : ∀ o ∈ pre, o.scheduleLoaded = true)
    (hbad : bad.scheduleLoaded = false) :
    (s.setDate d).2 = some ("Failed to update dividend observer: " ++
        ("dividend schedule of " ++ bad.name ++ " is not loaded"))
    ∧ (s.setDate d).1.dividendObservers
        = pre.map (fun o => { o with evalDate := d }) ++ bad :: post
    ∧ (s.setDate d).1.marketpriceObservers
        = s.marketpriceObservers.map (fun o => o.updateEvaluationDate d) := by
  obtain ⟨dt, mps, dvs⟩ := s
  simp only at hsplit ⊢
  subst hsplit
  have hnd := notifyDividend_fail d pre bad post hpre hbad
  refine ⟨?_, ?_, ?_⟩
  · rw [(setDate_state dt mps _ d).2, hnd]
  · rw [(setDate_state dt mps _ d).1, hnd]
  · rw [(setDate_state dt mps _ d).1]

/-- Witness for C6: in the fixture state the second dividend observer
is unloaded; `set_date 5` surfaces the error, updates the first
dividend observer and all market prices, and leaves the failing and
later observers untouched. -/
theorem claim_notify_fail_fast_witness :
    (evalC6.setDate 5).2 = some ("Failed to update dividend observer: " ++
        ("dividend schedule of " ++ divBad.name ++ " is not loaded"))
    ∧ (evalC6.setDate 5).1.dividendObservers
        = [divExHalf].map (fun o => { o with evalDate := 5 }) ++ divBad :: [divExOne]
    ∧ (evalC6.setDate 5).1.marketpriceObservers
        = evalC6.marketpriceObservers.map (fun o => o.updateEvaluationDate 5) :=
  claim_notify_fail_fast evalC6 5 [divExHalf] divBad [divExOne] rfl
    (by
      intro o ho
      rw [List.mem_singleton] at ho
      subst ho
      rfl)
    rfl

/-- One merge step: `mergeGroupResult` peels the head insertion. -/
theorem mergeGroupResult_cons (m : StaticId → Option CalculationResult)
    (p : StaticId × CalculationResult) (g : List (StaticId × CalculationResult)) :
    mergeGroupResult m (p :: g) = mergeGroupResult (insertResult m p.1 p.2) g := rfl

/-- Merging a group leaves keys outside the group untouched. -/
theorem mergeGroupResult_not_mem :
    ∀ (g : List (StaticId × CalculationResult)) (m : StaticId → Option CalculationResult)
      (x : StaticId), x ∉ g.map Prod.fst → mergeGroupResult m g x = m x := by
  intro g
  induction g with
  | nil => intro m x _; rfl
  | cons p g ih =>
      intro m x hx
      simp only [List.map_cons, List.mem_cons, not_or] at hx
      rw [mergeGroupResult_cons, ih _ x hx.2]
      simp only [insertResult, if_neg hx.1]

/-- At a key owned by the group, the merged value does not depend on the
map merged into. -/
theorem mergeGroupResult_mem_indep :
    ∀ (g : List (StaticId × CalculationResult)) (m m' : StaticId → Option CalculationResult)
      (x : StaticId), x ∈ g.map Prod.fst →
      mergeGroupResult m g x = mergeGroupResult m' g x := by
  intro g
  induction g with
  | nil => intro m m' x h; simp at h
  | cons p g ih =>
      intro m m' x hx
      rw [mergeGroupResult_cons, mergeGroupResult_cons]
      by_cases h : x ∈ g.map Prod.fst
      · exact ih _ _ x h
      · have hxp : x = p.1 := by
          simp only [List.map_cons, List.mem_cons] at hx
          tauto
        rw [mergeGroupResult_not_mem _ _ _ h, mergeGroupResult_not_mem _ _ _ h]
        simp [insertResult, hxp]

/-- Disjointness of result-map keys is symmetric. -/
theorem keysDisjoint_symm {g1 g2 : List (StaticId × CalculationResult)}
    (h : keysDisjoint g1 g2) : keysDisjoint g2 g1 :=
  fun k hk2 hk1 => h k hk1 hk2

/-- Merging two key-disjoint groups commutes. -/
theorem mergeGroupResult_comm (m : StaticId → Option CalculationResult)
    (g1 g2 : List (StaticId × CalculationResult)) (hd : keysDisjoint g1 g2) :
    mergeGroupResult (mergeGroupResult m g1) g2
      = mergeGroupResult (mergeGroupResult m g2) g1 := by
  funext x
  by_cases h1 : x ∈ g1.map Prod.fst
  · have h2 : x ∉ g2.map Prod.fst := hd x h1
    rw [mergeGroupResult_not_mem g2 _ x h2]
    exact mergeGroupResult_mem_indep g1 m (mergeGroupResult m g2) x h1
  · by_cases h2 : x ∈ g2.map Prod.fst
    · rw [mergeGroupResult_not_mem g1 (mergeGroupResult m g2) x h1]
      exact mergeGroupResult_mem_indep g2 (mergeGroupResult m g1) m x h2
    · rw [mergeGroupResult_not_mem g2 (mergeGroupResult m g1) x h2,
        mergeGroupResult_not_mem g1 m x h1,
        mergeGroupResult_not_mem g1 (mergeGroupResult m g2) x h1,
        mergeGroupResult_not_mem g2 m x h2]

/-- Folding the merge over any permutation of pairwise key-disjoint
groups gives the same map. -/
theorem foldl_merge_perm {gs gs' : List (List (StaticId × CalculationResult))}
    (hperm : gs'.Perm gs) :
    gs.Pairwise keysDisjoint →
    ∀ m, gs'.foldl mergeGroupResult m = gs.foldl mergeGroupResult m := by
  induction hperm with
  | nil => intro _ m; rfl
  | cons x h ih =>
      intro hp m
      simp only [List.foldl_cons]
      exact ih (List.pairwise_cons.mp hp).2 (mergeGroupResult m x)
  | swap x y l =>
      intro hp m
      simp only [List.foldl_cons]
      have hxy : keysDisjoint x y :=
        (List.pairwise_cons.mp hp).1 y (List.mem_cons_self _ _)
      rw [mergeGroupResult_comm m y x (keysDisjoint_symm hxy)]
  | trans h12 h23 ih12 ih23 =>
      intro hp m
      have hp2 := (h23.pairwise_iff (fun {_ _} h => keysDisjoint_symm h)).mpr hp
      exact (ih12 hp2 m).trans (ih23 hp m)

/-- C9: the merged result map of `EngineGenerator::calculate` is
independent of the order in which the per-group result maps are merged
into the shared map: when instrument ids are unique across groups (the
per-group key sets are pairwise disjoint), merging the groups in any
arrival order produces exactly the map of the sequential merge,
key-for-key — no insertion overwrites another group's entry. -/
theorem claim_merge_order_independence
    (gs gs' : List (List (StaticId × CalculationResult)))
    (hdisj : gs.Pairwise keysDisjoint) (hperm : gs'.Perm gs) :
    mergeAllResults gs' = mergeAllResults gs :=
  foldl_merge_perm hperm hdisj emptyResults

/-- Witness for C9: the two fixture groups, with distinct instrument
ids, merge to the same map in either order. -/
theorem claim_merge_order_independence_witness :
    mergeAllResults groupsExRev = mergeAllResults groupsEx :=
  claim_merge_order_independence groupsEx groupsExRev
    (by
      unfold groupsEx
      refine List.pairwise_cons.mpr ⟨?_, List.pairwise_singleton _ _⟩
      intro g hg
      rw [List.mem_singleton] at hg
      subst hg
      intro k hk hk'
      simp only [List.map_cons, List.map_nil, List.mem_singleton] at hk hk'
      subst hk
      exact absurd (hk'.symm.trans rfl) (by decide : idB ≠ idA))
    (by
      unfold groupsEx groupsExRev
      exact List.Perm.swap _ _ _)

/-- One category pass in closed form: the group is the unclaimed
matching instruments and the new state marks exactly those claimed. -/
theorem categoryScan_eq (cat : InstrumentCategory) (st : List (Instrument × Bool)) :
    categoryScan cat st
      = ((st.filter (fun p => !p.2 && cat.containsInst p.1)).map Prod.fst,
         st.map (fun p => (p.1, p.2 || cat.containsInst p.1))) := by
  induction st with
  | nil => rfl
  | cons p st ih =>
      obtain ⟨inst, claimed⟩ := p
      simp only [categoryScan, ih]
      cases claimed <;> cases hc : cat.containsInst inst <;> simp [hc]

/-- The claimed flags after the whole loop: an instrument is claimed iff
it started claimed or some category contains it. -/
theorem distributeLoop_state :
    ∀ (cats : List InstrumentCategory) (st : List (Instrument × Bool)),
    (distributeLoop cats st).2
      = st.map (fun p => (p.1, p.2 || cats.any (fun c => c.containsInst p.1))) := by
  intro cats
  induction cats with
  | nil => intro st; simp [distributeLoop]
  | cons c cats ih =>
      intro st
      simp only [distributeLoop, categoryScan_eq]
      rw [ih]
      simp only [List.map_map]
      apply List.map_congr_left
      intro p _
      simp [Function.comp, List.any_cons, Bool.or_assoc]

/-- Commuting the claimed-and-matching filter with unclaimed
extraction. -/
theorem filterClaimedMatch (c : InstrumentCategory) :
    ∀ st : List (Instrument × Bool),
    (st.filter (fun p => !p.2 && c.containsInst p.1)).map Prod.fst
      = ((st.filter (fun p => !p.2)).map Prod.fst).filter (fun v => c.containsInst v) := by
  intro st
  induction st with
  | nil => rfl
  | cons p st ih =>
      obtain ⟨inst, claimed⟩ := p
      cases claimed <;> cases hc : c.containsInst inst <;>
        simp [List.filter_cons, hc, ih]

/-- The unclaimed instruments after one category pass are the previously
unclaimed ones the category does not contain. -/
theorem filterAfterScan (c : InstrumentCategory) :
    ∀ st : List (Instrument × Bool),
    ((st.map (fun p => (p.1, p.2 || c.containsInst p.1))).filter (fun p => !p.2)).map Prod.fst
      = ((st.filter (fun p => !p.2)).map Prod.fst).filter (fun v => !c.containsInst v) := by
  intro st
  induction st with
  | nil => rfl
  | cons p st ih =>
      obtain ⟨inst, claimed⟩ := p
      cases claimed <;> cases hc : c.containsInst inst <;>
        simp [List.filter_cons, hc, ih]

/-- The group loop in closed form: the produced groups are the nonempty
peeling groups of the unclaimed instruments. -/
theorem distributeLoop_groups :
    ∀ (cats : List InstrumentCategory) (st : List (Instrument × Bool)),
    (distributeLoop cats st).1
      = (specGroups cats ((st.filter (fun p => !p.2)).map Prod.fst)).filter
          (fun g => !g.isEmpty) := by
  intro cats
  induction cats with
  | nil => intro st; simp [distributeLoop, specGroups]
  | cons c cats ih =>
      intro st
      simp only [distributeLoop, categoryScan_eq, specGroups]
      rw [ih, filterClaimedMatch c st, filterAfterScan c st]
      cases hie : (((st.filter (fun p => !p.2)).map Prod.fst).filter
          (fun v => c.containsInst v)).isEmpty <;>
        simp [List.filter_cons, hie]

/-- The peeling groups coincide with the first-match groups. -/
theorem specGroups_eq (cats : List InstrumentCategory) :
    ∀ insts : List Instrument, specGroups cats insts = firstMatchGroups cats insts := by
  induction cats with
  | nil => intro insts; rfl
  | cons c cs ih =>
      intro insts
      simp only [specGroups, firstMatchGroups, List.length_cons, List.range_succ_eq_map,
        List.map_cons, List.map_map]
      congr 1
      · apply List.filter_congr
        intro v _
        cases hc : c.containsInst v <;>
          simp only [firstIdx, hc, if_true, if_false, ite_true, ite_false]
        · cases ho : firstIdx cs v <;> simp [ho]
        · simp
      · rw [ih]
        simp only [firstMatchGroups, List.map_map]
        apply List.map_congr_left
        intro j _
        rw [List.filter_filter]
        apply List.filter_congr
        intro v _
        cases hc : c.containsInst v <;>
          simp only [firstIdx, hc, if_true, if_false, ite_true, ite_false, Function.comp]
        · cases ho : firstIdx cs v <;> simp [ho]
        · simp

/-- The initial all-unclaimed state extracts back to the instrument
list. -/
theorem st0_unclaimed (insts : List Instrument) :
    ((insts.map (fun i => (i, false))).filter (fun p => !p.2)).map Prod.fst = insts := by
  induction insts with
  | nil => rfl
  | cons i insts ih => simp [List.filter_cons, ih]

/-- The diagnostic messages of the final state are exactly those of the
instruments no category contains. -/
theorem mapPairFilterMsgs (f : Instrument → Bool) :
    ∀ insts : List Instrument,
    ((insts.map (fun i => (i, f i))).filter (fun p => !p.2)).map
        (fun p => undistributedMsg p.1)
      = (insts.filter (fun v => !f v)).map undistributedMsg := by
  intro insts
  induction insts with
  | nil => rfl
  | cons i insts ih =>
      simp only [List.map_cons, List.filter_cons]
      cases hf : f i <;> simp [hf, ih]

/-- A category list contains an instrument iff its first matching index
exists. -/
theorem firstIdx_isSome (cats : List InstrumentCategory) (v : Instrument) :
    cats.any (fun c => c.containsInst v) = true ↔ ∃ j, firstIdx cats v = some j := by
  induction cats with
  | nil => simp [firstIdx]
  | cons c cs ih =>
      simp only [List.any_cons, firstIdx]
      cases hc : c.containsInst v
      · rw [if_neg (by simp [hc]), Bool.false_or, ih]
        constructor
        · rintro ⟨j, hj⟩
          exact ⟨j + 1, by rw [hj]; rfl⟩
        · rintro ⟨j, hj⟩
          cases ho : firstIdx cs v with
          | none => rw [ho] at hj; cases hj
          | some n => exact ⟨n, rfl⟩
      · rw [if_pos (by simp [hc])]
        exact iff_of_true (by simp [hc]) ⟨0, rfl⟩

/-- A first-match index is an index into the category list. -/
theorem firstIdx_lt_length (cats : List InstrumentCategory) (v : Instrument) :
    ∀ j, firstIdx cats v = some j → j < cats.length := by
  induction cats with
  | nil => intro j h; simp [firstIdx] at h
  | cons c cs ih =>
      intro j h
      simp only [firstIdx] at h
      by_cases hc : c.containsInst v = true
      · rw [if_pos hc] at h
        injection h with h'
        simp only [List.length_cons]
        omega
      · rw [if_neg hc] at h
        cases ho : firstIdx cs v with
        | none => rw [ho] at h; cases h
        | some n =>
            rw [ho] at h
            simp only [Option.map_some'] at h
            injection h with h'
            have := ih n ho
            simp only [List.length_cons]
            omega

/-- C1: `distribute_instruments` assigns each instrument to the first
category in list order that contains it.  When every instrument is
contained in some category the call succeeds with the nonempty
first-match groups and every instrument appears in exactly one group;
otherwise it fails with the diagnostic error naming every undistributed
instrument (its name, code, type, currency and underlying ids), so a
partial distribution is never accepted. -/
theorem claim_distribute_instruments (cats : List InstrumentCategory)
    (insts : List Instrument) :
    (distributeInstruments cats insts
       = if insts.all (fun i => cats.any (fun c => c.containsInst i)) then
           .ok ((firstMatchGroups cats insts).filter (fun g => !g.isEmpty))
         else
           .error (undistributedError
             (insts.filter (fun v => !(cats.any (fun c => c.containsInst v))))))
    ∧ ((∀ i ∈ insts, ∃ c ∈ cats, c.containsInst i = true) →
        ∀ i ∈ insts, ∃! g,
          g ∈ (firstMatchGroups cats insts).filter (fun g => !g.isEmpty) ∧ i ∈ g) := by
  constructor
  · rcases hdl : distributeLoop cats (insts.map (fun i => (i, false))) with ⟨gs, st⟩
    have hgs : gs = (firstMatchGroups cats insts).filter (fun g => !g.isEmpty) := by
      have h := distributeLoop_groups cats (insts.map (fun i => (i, false)))
      rw [hdl, st0_unclaimed, specGroups_eq] at h
      exact h
    have hst : st = (insts.map (fun i => (i, false))).map
        (fun p => (p.1, p.2 || cats.any (fun c => c.containsInst p.1))) := by
      have h := distributeLoop_state cats (insts.map (fun i => (i, false)))
      rw [hdl] at h
      exact h
    have hmsgs : (st.filter (fun p => !p.2)).map (fun p => undistributedMsg p.1)
        = (insts.filter (fun v => !(cats.any (fun c => c.containsInst v)))).map
            undistributedMsg := by
      rw [hst, List.map_map]
      exact mapPairFilterMsgs (fun v => cats.any (fun c => c.containsInst v)) insts
    simp only [distributeInstruments, hdl]
    rw [hmsgs, hgs]
    by_cases hall : insts.all (fun i => cats.any (fun c => c.containsInst i)) = true
    · have hfilter : insts.filter (fun v => !(cats.any (fun c => c.containsInst v))) = [] := by
        rw [List.filter_eq_nil_iff]
        intro a ha
        have := List.all_eq_true.mp hall a ha
        simp [this]
      rw [hfilter, if_pos hall]
      simp
    · have hex : ∃ a ∈ insts, ¬ (cats.any (fun c => c.containsInst a) = true) := by
        by_contra hcon
        push_neg at hcon
        exact hall (List.all_eq_true.mpr hcon)
      obtain ⟨a, ha, hna⟩ := hex
      have hmem : a ∈ insts.filter (fun v => !(cats.any (fun c => c.containsInst v))) :=
        List.mem_filter.mpr ⟨ha, by simp [Bool.not_eq_true] at hna ⊢; exact hna⟩
      have hne : ¬ ((insts.filter (fun v => !(cats.any (fun c => c.containsInst v)))).map
          undistributedMsg).isEmpty = true := by
        have hmapne := List.ne_nil_of_mem (List.mem_map_of_mem undistributedMsg hmem)
        simp [List.isEmpty_iff, hmapne]
      rw [if_neg hne, if_neg hall]
      rfl
  · intro hcov i hi
    have hany : cats.any (fun c => c.containsInst i) = true := by
      rcases hcov i hi with ⟨c, hc, hct⟩
      exact List.any_eq_true.mpr ⟨c, hc, hct⟩
    obtain ⟨j, hj⟩ := (firstIdx_isSome cats i).mp hany
    have himem : i ∈ insts.filter (fun v => decide (firstIdx cats v = some j)) :=
      List.mem_filter.mpr ⟨hi, by simp [hj]⟩
    refine ⟨insts.filter (fun v => decide (firstIdx cats v = some j)), ⟨?_, himem⟩, ?_⟩
    · apply List.mem_filter.mpr
      constructor
      · apply List.mem_map.mpr
        exact ⟨j, List.mem_range.mpr (firstIdx_lt_length cats i j hj), rfl⟩
      · have := List.ne_nil_of_mem himem
        simp [List.isEmpty_iff, this]
    · rintro g' ⟨hg'mem, hig'⟩
      have hg'fm : g' ∈ firstMatchGroups cats insts := (List.mem_filter.mp hg'mem).1
      obtain ⟨j', _, rfl⟩ := List.mem_map.mp hg'fm
      have hj' : firstIdx cats i = some j' := by
        have h := (List.mem_filter.mp hig').2
        simpa using h
      have : j' = j := by
        rw [hj] at hj'
        injection hj' with h'
        exact h'.symm
      rw [this]

/-- Witness for C1: two KRW instruments and the currency-only KRW
category distribute successfully, and the cash instrument lands in
exactly one group. -/
theorem claim_distribute_instruments_witness :
    (distributeInstruments [catKRW] [cashEx, futEx]
       = if [cashEx, futEx].all (fun i => [catKRW].any (fun c => c.containsInst i)) then
           .ok ((firstMatchGroups [catKRW] [cashEx, futEx]).filter (fun g => !g.isEmpty))
         else
           .error (undistributedError
             ([cashEx, futEx].filter
               (fun v => !([catKRW].any (fun c => c.containsInst v))))))
    ∧ ∃! g, g ∈ (firstMatchGroups [catKRW] [cashEx, futEx]).filter (fun g => !g.isEmpty)
        ∧ cashEx ∈ g :=
  ⟨(claim_distribute_instruments [catKRW] [cashEx, futEx]).1,
   (claim_distribute_instruments [catKRW] [cashEx, futEx]).2
     (by decide) cashEx (List.Mem.head _)⟩

end RustMetrics
